import Mathlib

/-!
Verification of the wave-function-collapse solver in `src/waves/__main__.py`.

The embedding below translates the Python source into Lean:

* `Grid` mirrors the `Grid` dataclass (a flattened 2D grid); Python's
  `__post_init__` list comprehension becomes `Grid.create`, `__getitem__` /
  `__setitem__` become `Grid.get` / `Grid.set` (Python raises `IndexError`
  out of range; `Grid.get` returns the `Inhabited` default, which for
  `Finset` domains is the empty set, and `Grid.set` is a no-op — every
  theorem below only relies on in-range behaviour).
* Cell domains (Python `set` objects) become `Finset`s; the rule table
  (a Python `dict`) becomes a total function `L → Finset L` (the spec
  declares a missing key to be a caller contract violation).
* The `while`/`for` loops of `propagate` become the structurally recursive
  `visitNeighbors` (the inner `for neighbor in ...` loop, with its early
  `return False`) and `propagateLoop` (the outer `while` loop over the work
  stack, with a fuel parameter; `(none, g)` marks fuel exhaustion, which
  never occurs for the concrete runs below).  Python's `stack.append` /
  `util.pop` discipline is LIFO, modelled by cons/head on a Lean list.
* `solve` keeps the recursive structure of the source: sort `pending` by
  domain size (Python's stable `list.sort` is modelled by the stable
  `List.insertionSort`, which yields the identical list for a total
  preorder key), destructure the head, and try each candidate on a copy of
  the grid.  Python's `candidates = list(grid[at]); shuffle(candidates)`
  enumerates the domain set in an arbitrary order; it is modelled by an
  arbitrary function `sh : Finset L → List L`, and theorems assume at most
  that `sh` returns elements of its input, which every shuffle satisfies.
  Likewise `union(rules[candidate] for candidate in grid[at])`, a union
  over an arbitrary-order enumeration of a set, is the order-independent
  `Finset.sup rules`.
  The observer callback only has side effects outside the solver state and
  is omitted.  `tryCands` is the `for chosen in candidates` loop; the
  recursive `solve` call is passed to it as the continuation `recur`.
* For the two frame-effect claims (about mutation of the caller's
  arguments), `Heap` models the Python object store: grids and lists are
  heap cells addressed by references, `deepcopy` allocates a fresh cell,
  `pending.sort(...)` updates the caller's list cell in place, and
  `at, *pending = pending` allocates a fresh list cell for the local
  variable.  `solveS` / `tryCandsS` are the same source lines translated
  against this store.
-/

namespace Waves

/-- The `Grid` dataclass: width, height, and the flat `contents` list. -/
structure Grid (T : Type) where
  width : Nat
  height : Nat
  contents : List T
deriving DecidableEq

variable {T : Type} {L : Type}

/-- Python `__post_init__`: `[init(x, y) for x in range(width) for y in range(height)]`
(note the comprehension runs `x` in the outer loop and `y` in the inner one). -/
def Grid.create (width height : Nat) (init : Nat → Nat → T) : Grid T :=
  ⟨width, height,
    (List.range width).flatMap fun x => (List.range height).map fun y => init x y⟩

/-- Python `mangle`: `(x % self.width) + (y % self.height) * self.width`.
Python's `%` on a positive modulus is `Int.emod`. -/
def Grid.mangle (g : Grid T) (x y : Int) : Int :=
  x % (g.width : Int) + y % (g.height : Int) * (g.width : Int)

/-- Python `unmangle`: `(at % self.width), (at // self.width)`. -/
def Grid.unmangle (g : Grid T) (i : Nat) : Nat × Nat :=
  (i % g.width, i / g.width)

/-- Python `__getitem__` (out of range yields the `Inhabited` default,
see the header note). -/
def Grid.get [Inhabited T] (g : Grid T) (i : Nat) : T :=
  g.contents.getD i default

/-- Python `__setitem__` (out of range is a no-op, see the header note). -/
def Grid.set (g : Grid T) (i : Nat) (v : T) : Grid T :=
  { g with contents := g.contents.set i v }

/-- Python `neighbors_of`: for `dx` in `range(-1, +2)` (outer) and `dy` in
`range(-1, +2)` (inner), skip `(0, 0)`, keep the offset when
`0 <= x + dx < width and 0 <= y + dy < height`, and yield
`mangle(x + dx, y + dy)`. -/
def Grid.neighbors_of (g : Grid T) (i : Nat) : List Nat :=
  let x := (g.unmangle i).1
  let y := (g.unmangle i).2
  ([-1, 0, 1] : List Int).flatMap fun dx =>
    ([-1, 0, 1] : List Int).filterMap fun dy =>
      if dx = 0 ∧ dy = 0 then none
      else if 0 ≤ (x : Int) + dx ∧ (x : Int) + dx < (g.width : Int) ∧
          0 ≤ (y : Int) + dy ∧ (y : Int) + dy < (g.height : Int) then
        some (g.mangle ((x : Int) + dx) ((y : Int) + dy)).toNat
      else none

/-- Python `has_contradictions`: `any(not cell for cell in grid)`. -/
def has_contradictions [DecidableEq L] (g : Grid (Finset L)) : Bool :=
  g.contents.any fun cell => decide (cell = ∅)

/-- Python `is_fully_collapsed`: `not any(len(cell) > 1 for cell in grid)`. -/
def is_fully_collapsed (g : Grid (Finset L)) : Bool :=
  !(g.contents.any fun cell => decide (1 < cell.card))

/-- The `for neighbor in grid.neighbors_of(at)` loop body of `propagate`:
skip a neighbor whose domain is inside `domain`, otherwise intersect it
with `domain` and push it; the early `return False` on an emptied domain
becomes the `false` result.  Arguments: the allowed `domain`, the current
grid, the remaining neighbors, the work stack. -/
def visitNeighbors [DecidableEq L] :
    Finset L → Grid (Finset L) → List Nat → List Nat →
      Bool × Grid (Finset L) × List Nat
  | _, g, [], stack => (true, g, stack)
  | domain, g, n :: rest, stack =>
    if g.get n \ domain = ∅ then
      visitNeighbors domain g rest stack
    else
      let g' := g.set n (g.get n ∩ domain)
      if g'.get n = ∅ then (false, g', n :: stack)
      else visitNeighbors domain g' rest (n :: stack)

/-- The `while (at := pop(stack)) is not None` loop of `propagate`, with
fuel; `(none, g)` is fuel exhaustion.  Per iteration it computes
`domain = union(rules[candidate] for candidate in grid[at])` — the union
of `rules` over the current domain of `at`, i.e. `Finset.sup` — and runs
the neighbor loop. -/
def propagateLoop [DecidableEq L] (rules : L → Finset L) :
    Nat → Grid (Finset L) → List Nat → (Option Bool) × Grid (Finset L)
  | 0, g, _ => (none, g)
  | _ + 1, g, [] => (some true, g)
  | fuel + 1, g, i :: rest =>
    let domain := (g.get i).sup rules
    match visitNeighbors domain g (g.neighbors_of i) rest with
    | (false, g', _) => (some false, g')
    | (true, g', stack') => propagateLoop rules fuel g' stack'

/-- Python `propagate(grid, root, rules)`: run the work-stack loop from
`stack = [root]`.  The pair result carries the grid left behind (Python
mutates its argument in place). -/
def propagate [DecidableEq L] (rules : L → Finset L) (fuel : Nat)
    (g : Grid (Finset L)) (root : Nat) : (Option Bool) × Grid (Finset L) :=
  propagateLoop rules fuel g [root]

/-- Python `pending.sort(key=lambda at: len(grid[at]))`: a stable sort by
ascending domain size (any two stable sorts agree, so `insertionSort`
models `list.sort` exactly). -/
def sortPending [DecidableEq L] (grid : Grid (Finset L)) (pending : List Nat) :
    List Nat :=
  pending.insertionSort fun a b => (grid.get a).card ≤ (grid.get b).card

/-- The `for chosen in candidates` loop of `solve`: copy the grid, force
cell `i` to `{chosen}`, propagate, and on success hand the propagated grid
to the continuation `recur` (the recursive `solve` call on the remaining
pending list); a `none` result anywhere is fuel exhaustion. -/
def tryCands [DecidableEq L] (rules : L → Finset L)
    (recur : Grid (Finset L) → List Nat → Option (Option (Grid (Finset L))))
    (fuel : Nat) (grid : Grid (Finset L)) (i : Nat) (rest : List Nat) :
    List L → Option (Option (Grid (Finset L)))
  | [] => some none
  | chosen :: more =>
    let part := grid.set i {chosen}
    match propagate rules fuel part i with
    | (none, _) => none
    | (some false, _) => tryCands rules recur fuel grid i rest more
    | (some true, part') =>
      match recur part' rest with
      | none => none
      | some (some solved) => some (some solved)
      | some none => tryCands rules recur fuel grid i rest more

/-- Python `solve(grid, rules, pending, callback)`: sort `pending` by
domain size, return the grid when it is empty, otherwise try the shuffled
candidates of the first cell.  `sh` stands for `shuffle`; `fuel` bounds
the recursion depth and the propagation loop; `some r` is the faithful
Python result (`r = none` is Python's `None`). -/
def solve [DecidableEq L] (sh : Finset L → List L) (rules : L → Finset L) :
    Nat → Grid (Finset L) → List Nat → Option (Option (Grid (Finset L)))
  | 0, _, _ => none
  | fuel + 1, grid, pending =>
    match sortPending grid pending with
    | [] => some (some grid)
    | i :: rest =>
      tryCands rules (fun g p => solve sh rules fuel g p) fuel grid i rest
        (sh (grid.get i))

/-- The Python object store for the frame-effect claims: grid objects and
list objects, addressed by references (their index in the store). -/
structure Heap (L : Type) where
  grids : List (Grid (Finset L))
  lists : List (List Nat)
deriving DecidableEq

/-- Dereference a grid object. -/
def Heap.gridAt (h : Heap L) (r : Nat) : Grid (Finset L) :=
  h.grids.getD r ⟨0, 0, []⟩

/-- Dereference a list object. -/
def Heap.listAt (h : Heap L) (r : Nat) : List Nat :=
  h.lists.getD r []

/-- Overwrite a grid object in place. -/
def Heap.setGridAt (h : Heap L) (r : Nat) (g : Grid (Finset L)) : Heap L :=
  { h with grids := h.grids.set r g }

/-- Overwrite a list object in place (Python `list.sort` mutates). -/
def Heap.setListAt (h : Heap L) (r : Nat) (l : List Nat) : Heap L :=
  { h with lists := h.lists.set r l }

/-- Allocate a fresh grid object (Python `deepcopy`), returning its reference. -/
def Heap.allocGrid (h : Heap L) (g : Grid (Finset L)) : Heap L × Nat :=
  ({ h with grids := h.grids ++ [g] }, h.grids.length)

/-- Allocate a fresh list object (Python `at, *pending = pending` builds a
new list for the local variable), returning its reference. -/
def Heap.allocList (h : Heap L) (l : List Nat) : Heap L × Nat :=
  ({ h with lists := h.lists ++ [l] }, h.lists.length)

/-- Store-level translation of the `for chosen in candidates` loop of
`solve`: `partial = deepcopy(grid)` allocates, `partial[at] = {chosen}`
and the in-place mutations of `propagate(partial, at, rules)` hit only
that fresh object, and the recursive call receives the fresh grid and the
(shared) local pending list `prest`. -/
def tryCandsS [DecidableEq L] (rules : L → Finset L)
    (recur : Heap L → Nat → Nat → Option (Heap L × Option Nat))
    (fuel : Nat) (gref : Nat) (i : Nat) (prest : Nat) :
    List L → Heap L → Option (Heap L × Option Nat)
  | [], h => some (h, none)
  | chosen :: more, h =>
    let ap := h.allocGrid (h.gridAt gref)
    let h₂ := ap.1.setGridAt ap.2 ((ap.1.gridAt ap.2).set i {chosen})
    match propagate rules fuel (h₂.gridAt ap.2) i with
    | (none, _) => none
    | (some false, g') =>
      tryCandsS rules recur fuel gref i prest more (h₂.setGridAt ap.2 g')
    | (some true, g') =>
      match recur (h₂.setGridAt ap.2 g') ap.2 prest with
      | none => none
      | some (h₄, some sref) => some (h₄, some sref)
      | some (h₄, none) => tryCandsS rules recur fuel gref i prest more h₄

/-- Store-level translation of `solve(grid, rules, pending, callback)`:
`pending.sort(key=lambda at: len(grid[at]))` overwrites the caller's list
object `pref` in place; `at, *pending = pending` rebinds the local name to
a freshly allocated list; on terminal success the caller's grid object
`gref` itself is returned. -/
def solveS [DecidableEq L] (sh : Finset L → List L) (rules : L → Finset L) :
    Nat → Heap L → Nat → Nat → Option (Heap L × Option Nat)
  | 0, _, _, _ => none
  | fuel + 1, h, gref, pref =>
    let g := h.gridAt gref
    let sorted := sortPending g (h.listAt pref)
    let h₁ := h.setListAt pref sorted
    match sorted with
    | [] => some (h₁, some gref)
    | i :: rest =>
      let al := h₁.allocList rest
      tryCandsS rules (fun hh g p => solveS sh rules fuel hh g p) fuel gref i
        al.2 (sh (g.get i)) al.1

/-- Modelled from the spec (section 3 / section 8, for the refinement claim
about `neighbors_of`): the offsets `(dx, dy)` of `{-1,0,1} x {-1,0,1}`
minus `(0,0)`, `dx` outer and `dy` inner, both ascending, kept exactly
when `0 ≤ x+dx < width` and `0 ≤ y+dy < height` before any modular wrap,
each yielding the index `(x+dx) + (y+dy)*width`. -/
def specNeighbors (width height : Nat) (x y : Nat) : List Nat :=
  ([-1, 0, 1] : List Int).flatMap fun dx =>
    ([-1, 0, 1] : List Int).filterMap fun dy =>
      if dx = 0 ∧ dy = 0 then none
      else if 0 ≤ (x : Int) + dx ∧ (x : Int) + dx < (width : Int) ∧
          0 ≤ (y : Int) + dy ∧ (y : Int) + dy < (height : Int) then
        some (((x : Int) + dx) + ((y : Int) + dy) * (width : Int)).toNat
      else none

/-- Solver invariant: every cell already consumed from the pending list
(i.e. not in `pending` any more) holds a singleton domain whose label is
compatible with all of its neighbors' remaining domains. -/
def Inv [DecidableEq L] (rules : L → Finset L) (g : Grid (Finset L))
    (pending : List Nat) : Prop :=
  ∀ j, j < g.contents.length → j ∉ pending →
    ∃ l, g.get j = {l} ∧ ∀ n ∈ g.neighbors_of j, g.get n ⊆ rules l

/-- Frame property of a store computation: the store only grows, every
pre-existing grid object is untouched, and every pre-existing list object
other than `pref` is untouched. -/
def Preserves (h h' : Heap L) (pref : Nat) : Prop :=
  h.grids.length ≤ h'.grids.length ∧ h.lists.length ≤ h'.lists.length ∧
    (∀ r, r < h.grids.length → h'.gridAt r = h.gridAt r) ∧
    (∀ r, r < h.lists.length → r ≠ pref → h'.listAt r = h.listAt r)

/-- A concrete stand-in for `shuffle` usable in the witness runs below: it
enumerates the labels of a domain (all witnesses use labels below 8) in
ascending order, one legitimate outcome of a random shuffle. -/
def shEnum : Finset Nat → List Nat :=
  fun s => (List.range 8).filter fun n => decide (n ∈ s)

/-! Basic facts about `Grid.get` / `Grid.set`. -/

theorem Grid.width_set (g : Grid T) (i : Nat) (v : T) : (g.set i v).width = g.width := rfl

theorem Grid.height_set (g : Grid T) (i : Nat) (v : T) : (g.set i v).height = g.height := rfl

theorem Grid.length_set (g : Grid T) (i : Nat) (v : T) :
    (g.set i v).contents.length = g.contents.length := by
  simp [Grid.set]

theorem Grid.get_set_self [Inhabited T] (g : Grid T) (i : Nat) (v : T)
    (h : i < g.contents.length) : (g.set i v).get i = v := by
  simp [Grid.set, Grid.get, List.getD_eq_getElem?_getD, List.getElem?_set, h]

theorem Grid.get_set_ne [Inhabited T] (g : Grid T) (i j : Nat) (v : T)
    (h : i ≠ j) : (g.set i v).get j = g.get j := by
  simp [Grid.set, Grid.get, List.getD_eq_getElem?_getD, List.getElem?_set, h]

theorem Grid.get_lt_of_ne_empty [DecidableEq L] (g : Grid (Finset L)) (i : Nat)
    (h : g.get i ≠ ∅) : i < g.contents.length := by
  by_contra hlt
  apply h
  rw [Grid.get, List.getD_eq_getElem?_getD, List.getElem?_eq_none (Nat.le_of_not_lt hlt)]
  rfl

theorem Grid.get_mem_contents [Inhabited T] (g : Grid T) (i : Nat)
    (h : i < g.contents.length) : g.get i ∈ g.contents := by
  rw [Grid.get, List.getD_eq_getElem g.contents default h]
  exact List.getElem_mem h

/-- The neighbor list only depends on the grid's dimensions. -/
theorem Grid.neighbors_congr {T2 : Type} (g : Grid T) (g2 : Grid T2)
    (hw : g.width = g2.width) (hh : g.height = g2.height) (i : Nat) :
    g.neighbors_of i = g2.neighbors_of i := by
  simp [Grid.neighbors_of, Grid.unmangle, Grid.mangle, hw, hh]

/-- Every neighbor index is in range (the bound check runs before the
modular wrap, so the wrap is the identity there). -/
theorem Grid.neighbors_lt (g : Grid T) (i n : Nat) (h : n ∈ g.neighbors_of i) :
    n < g.width * g.height := by
  simp only [Grid.neighbors_of, List.mem_flatMap, List.mem_filterMap] at h
  obtain ⟨dx, -, dy, -, hif⟩ := h
  split_ifs at hif with h0 hb
  obtain ⟨hx0, hxw, hy0, hyh⟩ := hb
  have hn := Option.some.inj hif
  subst hn
  rw [Grid.mangle, Int.emod_eq_of_lt hx0 hxw, Int.emod_eq_of_lt hy0 hyh]
  set X : Int := ((g.unmangle i).1 : Int) + dx with hX
  set Y : Int := ((g.unmangle i).2 : Int) + dy with hY
  have h1 : X + Y * (g.width : Int) < (g.width : Int) + Y * (g.width : Int) := by
    linarith
  have h2 : (g.width : Int) + Y * (g.width : Int) = (Y + 1) * (g.width : Int) := by
    ring
  have h3 : (Y + 1) * (g.width : Int) ≤ (g.height : Int) * (g.width : Int) :=
    mul_le_mul_of_nonneg_right (by linarith) (by linarith)
  have h4 : X + Y * (g.width : Int) < (g.width : Int) * (g.height : Int) := by
    rw [mul_comm ((g.width : Int)) ((g.height : Int))]
    linarith
  have h5 : ((g.width * g.height : Nat) : Int) = (g.width : Int) * (g.height : Int) := by
    push_cast
    ring
  have hnn : 0 ≤ X + Y * (g.width : Int) :=
    add_nonneg hx0 (mul_nonneg hy0 (by exact_mod_cast Nat.zero_le g.width))
  rw [Int.toNat_lt hnn, h5]
  exact h4

/-! Facts about one pass of the neighbor loop of `propagate`. -/

theorem vn_dims [DecidableEq L] (domain : Finset L) (ns : List Nat) :
    ∀ (g : Grid (Finset L)) (stack : List Nat),
      (visitNeighbors domain g ns stack).2.1.width = g.width ∧
      (visitNeighbors domain g ns stack).2.1.height = g.height ∧
      (visitNeighbors domain g ns stack).2.1.contents.length = g.contents.length := by
  induction ns with
  | nil => intro g stack; simp [visitNeighbors]
  | cons n rest ih =>
    intro g stack
    simp only [visitNeighbors]
    split_ifs with h1 h2
    · exact ih g stack
    · simp [Grid.set]
    · have h3 := ih (g.set n (g.get n ∩ domain)) (n :: stack)
      simpa [Grid.set] using h3

theorem vn_subset [DecidableEq L] (domain : Finset L) (ns : List Nat) :
    ∀ (g : Grid (Finset L)) (stack : List Nat) (j : Nat),
      (visitNeighbors domain g ns stack).2.1.get j ⊆ g.get j := by
  induction ns with
  | nil => intro g stack j; simp [visitNeighbors]
  | cons n rest ih =>
    intro g stack j
    simp only [visitNeighbors]
    split_ifs with h1 h2
    · exact ih g stack j
    · by_cases hj : n = j
      · subst hj
        have hn : n < g.contents.length :=
          g.get_lt_of_ne_empty n fun he => h1 (by simp [he])
        simp only [Grid.get_set_self g n _ hn]
        exact Finset.inter_subset_left
      · simp only [Grid.get_set_ne g n j _ hj]
        exact subset_rfl
    · refine subset_trans (ih (g.set n (g.get n ∩ domain)) (n :: stack) j) ?_
      by_cases hj : n = j
      · subst hj
        have hn : n < g.contents.length :=
          g.get_lt_of_ne_empty n fun he => h1 (by simp [he])
        rw [Grid.get_set_self g n _ hn]
        exact Finset.inter_subset_left
      · rw [Grid.get_set_ne g n j _ hj]

theorem vn_true_cases [DecidableEq L] (domain : Finset L) (ns : List Nat) :
    ∀ (g g' : Grid (Finset L)) (stack stack' : List Nat),
      visitNeighbors domain g ns stack = (true, g', stack') →
      ∀ j, g'.get j = g.get j ∨ g'.get j ≠ ∅ := by
  induction ns with
  | nil =>
    intro g g' stack stack' h j
    simp only [visitNeighbors, Prod.mk.injEq] at h
    rw [h.2.1]
    exact Or.inl rfl
  | cons n rest ih =>
    intro g g' stack stack' h j
    simp only [visitNeighbors] at h
    split_ifs at h with h1 h2
    · exact ih g g' stack stack' h j
    · simp at h
    · rcases ih _ g' (n :: stack) stack' h j with h3 | h3
      · rw [h3]
        by_cases hj : n = j
        · subst hj
          exact Or.inr h2
        · rw [Grid.get_set_ne g n j _ hj]
          exact Or.inl rfl
      · exact Or.inr h3

theorem vn_true_domain [DecidableEq L] (domain : Finset L) (ns : List Nat) :
    ∀ (g g' : Grid (Finset L)) (stack stack' : List Nat),
      visitNeighbors domain g ns stack = (true, g', stack') →
      ∀ m ∈ ns, g'.get m ⊆ domain := by
  induction ns with
  | nil => intro g g' stack stack' h m hm; cases hm
  | cons n rest ih =>
    intro g g' stack stack' h m hm
    simp only [visitNeighbors] at h
    split_ifs at h with h1 h2
    · rcases List.mem_cons.mp hm with rfl | hm2
      · have hsub : g.get m ⊆ domain := Finset.sdiff_eq_empty_iff_subset.mp h1
        calc g'.get m ⊆ g.get m := by
              have h4 := vn_subset domain rest g stack m
              rw [h] at h4
              exact h4
          _ ⊆ domain := hsub
      · exact ih g g' stack stack' h m hm2
    · simp at h
    · rcases List.mem_cons.mp hm with rfl | hm2
      · have hn : m < g.contents.length :=
          g.get_lt_of_ne_empty m fun he => h1 (by simp [he])
        have h4 := vn_subset domain rest (g.set m (g.get m ∩ domain)) (m :: stack) m
        rw [h] at h4
        refine subset_trans h4 ?_
        rw [Grid.get_set_self g m _ hn]
        exact Finset.inter_subset_right
      · exact ih _ g' (n :: stack) stack' h m hm2

theorem vn_false_empty [DecidableEq L] (domain : Finset L) (ns : List Nat) :
    ∀ (g g' : Grid (Finset L)) (stack stack' : List Nat),
      visitNeighbors domain g ns stack = (false, g', stack') →
      ∃ j, j < g'.contents.length ∧ g'.get j = ∅ := by
  induction ns with
  | nil => intro g g' stack stack' h; simp [visitNeighbors] at h
  | cons n rest ih =>
    intro g g' stack stack' h
    simp only [visitNeighbors] at h
    split_ifs at h with h1 h2
    · exact ih g g' stack stack' h
    · simp only [Prod.mk.injEq] at h
      obtain ⟨-, hg, -⟩ := h
      subst hg
      have hn : n < g.contents.length :=
        g.get_lt_of_ne_empty n fun he => h1 (by simp [he])
      exact ⟨n, by simpa [Grid.set] using hn, h2⟩
    · exact ih _ g' (n :: stack) stack' h

/-! Facts about the propagation work-stack loop. -/

theorem pl_dims [DecidableEq L] (rules : L → Finset L) (fuel : Nat) :
    ∀ (g : Grid (Finset L)) (stack : List Nat),
      (propagateLoop rules fuel g stack).2.width = g.width ∧
      (propagateLoop rules fuel g stack).2.height = g.height ∧
      (propagateLoop rules fuel g stack).2.contents.length = g.contents.length := by
  induction fuel with
  | zero => intro g stack; simp [propagateLoop]
  | succ f ih =>
    intro g stack
    cases stack with
    | nil => simp [propagateLoop]
    | cons i rest =>
      simp only [propagateLoop]
      rcases hv : visitNeighbors ((g.get i).sup rules) g (g.neighbors_of i) rest with ⟨b, g₁, s₁⟩
      have h1 := vn_dims ((g.get i).sup rules) (g.neighbors_of i) g rest
      rw [hv] at h1
      cases b
      · simpa using h1
      · have h2 := ih g₁ s₁
        simp only []
        exact ⟨h2.1.trans h1.1, h2.2.1.trans h1.2.1, h2.2.2.trans h1.2.2⟩

theorem pl_subset [DecidableEq L] (rules : L → Finset L) (fuel : Nat) :
    ∀ (g : Grid (Finset L)) (stack : List Nat) (j : Nat),
      (propagateLoop rules fuel g stack).2.get j ⊆ g.get j := by
  induction fuel with
  | zero => intro g stack j; simp [propagateLoop]
  | succ f ih =>
    intro g stack j
    cases stack with
    | nil => simp [propagateLoop]
    | cons i rest =>
      simp only [propagateLoop]
      rcases hv : visitNeighbors ((g.get i).sup rules) g (g.neighbors_of i) rest with ⟨b, g₁, s₁⟩
      have h1 := vn_subset ((g.get i).sup rules) (g.neighbors_of i) g rest j
      rw [hv] at h1
      cases b
      · simpa using h1
      · exact (ih g₁ s₁ j).trans h1

theorem pl_true_cases [DecidableEq L] (rules : L → Finset L) (fuel : Nat) :
    ∀ (g g' : Grid (Finset L)) (stack : List Nat),
      propagateLoop rules fuel g stack = (some true, g') →
      ∀ j, g'.get j = g.get j ∨ g'.get j ≠ ∅ := by
  induction fuel with
  | zero => intro g g' stack h j; simp [propagateLoop] at h
  | succ f ih =>
    intro g g' stack h j
    cases stack with
    | nil =>
      simp only [propagateLoop, Prod.mk.injEq] at h
      rw [h.2]
      exact Or.inl rfl
    | cons i rest =>
      simp only [propagateLoop] at h
      rcases hv : visitNeighbors ((g.get i).sup rules) g (g.neighbors_of i) rest with ⟨b, g₁, s₁⟩
      rw [hv] at h
      cases b
      · simp at h
      · have h1 := vn_true_cases ((g.get i).sup rules) (g.neighbors_of i) g g₁ rest s₁ hv j
        rcases ih g₁ g' s₁ h j with h2 | h2
        · rw [h2]
          exact h1
        · exact Or.inr h2

theorem pl_false_empty [DecidableEq L] (rules : L → Finset L) (fuel : Nat) :
    ∀ (g g' : Grid (Finset L)) (stack : List Nat),
      propagateLoop rules fuel g stack = (some false, g') →
      ∃ j, j < g'.contents.length ∧ g'.get j = ∅ := by
  induction fuel with
  | zero => intro g g' stack h; simp [propagateLoop] at h
  | succ f ih =>
    intro g g' stack h
    cases stack with
    | nil => simp [propagateLoop] at h
    | cons i rest =>
      simp only [propagateLoop] at h
      rcases hv : visitNeighbors ((g.get i).sup rules) g (g.neighbors_of i) rest with ⟨b, g₁, s₁⟩
      rw [hv] at h
      cases b
      · simp only [Prod.mk.injEq] at h
        rw [← h.2]
        exact vn_false_empty ((g.get i).sup rules) (g.neighbors_of i) g g₁ rest s₁ hv
      · exact ih g₁ g' s₁ h

/-- A singleton cell that survives a successful propagation is unchanged. -/
theorem pl_singleton [DecidableEq L] (rules : L → Finset L) (fuel : Nat)
    (g g' : Grid (Finset L)) (stack : List Nat) (j : Nat) (l : L)
    (hj : g.get j = {l}) (h : propagateLoop rules fuel g stack = (some true, g')) :
    g'.get j = {l} := by
  have hsub : g'.get j ⊆ {l} := by
    have h1 := pl_subset rules fuel g stack j
    rw [h] at h1
    rw [← hj]
    exact h1
  rcases Finset.subset_singleton_iff.mp hsub with he | he
  · rcases pl_true_cases rules fuel g g' stack h j with h2 | h2
    · rw [h2, hj]
    · exact absurd he h2
  · exact he

/-- After a successful `propagate` from a cell holding `{chosen}`, every
neighbor's domain sits inside `rules chosen`. -/
theorem propagate_root_domain [DecidableEq L] (rules : L → Finset L) (fuel : Nat)
    (g g' : Grid (Finset L)) (i : Nat) (chosen : L)
    (hi : g.get i = {chosen}) (h : propagate rules fuel g i = (some true, g')) :
    ∀ n ∈ g.neighbors_of i, g'.get n ⊆ rules chosen := by
  intro n hn
  rw [propagate] at h
  cases fuel with
  | zero => simp [propagateLoop] at h
  | succ f =>
    simp only [propagateLoop] at h
    rw [hi, Finset.sup_singleton] at h
    rcases hv : visitNeighbors (rules chosen) g (g.neighbors_of i) [] with ⟨b, g₁, s₁⟩
    rw [hv] at h
    cases b
    · simp at h
    · have h1 := vn_true_domain (rules chosen) (g.neighbors_of i) g g₁ [] s₁ hv n hn
      have h3 : propagateLoop rules f g₁ s₁ = (some true, g') := h
      have h2 := pl_subset rules f g₁ s₁ n
      rw [h3] at h2
      exact h2.trans h1

/-! Facts about `has_contradictions` and `sortPending`. -/

theorem contra_iff_exists [DecidableEq L] (g : Grid (Finset L)) :
    has_contradictions g = true ↔ ∃ j, j < g.contents.length ∧ g.get j = ∅ := by
  simp only [has_contradictions, List.any_eq_true, decide_eq_true_eq]
  constructor
  · rintro ⟨c, hc, rfl⟩
    obtain ⟨j, hj, hval⟩ := List.mem_iff_getElem.mp hc
    exact ⟨j, hj, by rw [Grid.get, List.getD_eq_getElem g.contents default hj, hval]⟩
  · rintro ⟨j, hj, hval⟩
    refine ⟨g.get j, g.get_mem_contents j hj, hval⟩

theorem mem_sortPending [DecidableEq L] (g : Grid (Finset L)) (p : List Nat)
    (j : Nat) : j ∈ sortPending g p ↔ j ∈ p :=
  (List.perm_insertionSort _ p).mem_iff

theorem sortPending_sorted [DecidableEq L] (g : Grid (Finset L)) (p : List Nat) :
    List.Sorted (fun a b => (g.get a).card ≤ (g.get b).card) (sortPending g p) := by
  haveI h1 : IsTotal Nat fun a b => (g.get a).card ≤ (g.get b).card :=
    ⟨fun a b => Nat.le_total _ _⟩
  haveI h2 : IsTrans Nat fun a b => (g.get a).card ≤ (g.get b).card :=
    ⟨fun _ _ _ hab hbc => le_trans hab hbc⟩
  exact List.sorted_insertionSort _ p

/-! The solver invariant is established cell by cell: `tryCands_inv` covers
one `for chosen in candidates` loop, `solve_inv` the whole recursion. -/

theorem tryCands_inv [DecidableEq L] (rules : L → Finset L)
    (recur : Grid (Finset L) → List Nat → Option (Option (Grid (Finset L))))
    (hrec : ∀ g p g2, g.contents.length = g.width * g.height → Inv rules g p →
      recur g p = some (some g2) →
      g2.width = g.width ∧ g2.height = g.height ∧
      g2.contents.length = g.contents.length ∧ Inv rules g2 []) :
    ∀ (cands : List L) (fuel : Nat) (g : Grid (Finset L)) (i : Nat)
      (rest : List Nat) (g' : Grid (Finset L)),
      (∀ x ∈ cands, x ∈ g.get i) →
      g.contents.length = g.width * g.height →
      Inv rules g (i :: rest) →
      tryCands rules recur fuel g i rest cands = some (some g') →
      g'.width = g.width ∧ g'.height = g.height ∧
      g'.contents.length = g.contents.length ∧ Inv rules g' [] := by
  intro cands
  induction cands with
  | nil =>
    intro fuel g i rest g' _ _ _ h
    simp [tryCands] at h
  | cons chosen more ih =>
    intro fuel g i rest g' hmem hlen hinv h
    have hchosen : chosen ∈ g.get i := hmem chosen (List.mem_cons_self chosen more)
    have hine : g.get i ≠ ∅ := fun he => by
      rw [he] at hchosen
      exact absurd hchosen (Finset.not_mem_empty chosen)
    have hilt : i < g.contents.length := g.get_lt_of_ne_empty i hine
    simp only [tryCands] at h
    rcases hp : propagate rules fuel (g.set i {chosen}) i with ⟨_ | b, part⟩
    · rw [hp] at h
      simp at h
    · rw [hp] at h
      cases b
      · exact ih fuel g i rest g'
          (fun x hx => hmem x (List.mem_cons_of_mem chosen hx)) hlen hinv h
      · -- propagation succeeded on the copy forced to {chosen}
        have hdims := pl_dims rules fuel (g.set i {chosen}) [i]
        rw [propagate] at hp
        rw [hp] at hdims
        have hpw : part.width = g.width := by
          rw [hdims.1]; exact g.width_set i {chosen}
        have hph : part.height = g.height := by
          rw [hdims.2.1]; exact g.height_set i {chosen}
        have hpl : part.contents.length = g.contents.length := by
          rw [hdims.2.2]; exact g.length_set i {chosen}
        have hroot : (g.set i {chosen}).get i = {chosen} :=
          g.get_set_self i {chosen} hilt
        have hparti : part.get i = {chosen} :=
          pl_singleton rules fuel (g.set i {chosen}) part [i] i chosen hroot hp
        have hnbcongr : ∀ k : Nat, part.neighbors_of k = g.neighbors_of k := fun k =>
          Grid.neighbors_congr part g hpw hph k
        have hnbset : ∀ k : Nat, (g.set i {chosen}).neighbors_of k = g.neighbors_of k :=
          fun k => Grid.neighbors_congr (g.set i {chosen}) g rfl rfl k
        have hsub : ∀ k : Nat, part.get k ⊆ (g.set i {chosen}).get k := by
          intro k
          have h1 := pl_subset rules fuel (g.set i {chosen}) [i] k
          rw [hp] at h1
          exact h1
        have hsubg : ∀ k : Nat, k ≠ i → part.get k ⊆ g.get k := by
          intro k hk
          have := hsub k
          rwa [Grid.get_set_ne g i k {chosen} (fun he => hk he.symm)] at this
        have hinvpart : Inv rules part rest := by
          intro j hj hjrest
          by_cases hji : j = i
          · subst hji
            refine ⟨chosen, hparti, ?_⟩
            intro n hn
            rw [hnbcongr j] at hn
            have h2 := propagate_root_domain rules fuel (g.set j {chosen}) part j
              chosen hroot (by rw [propagate]; exact hp) n (by rw [hnbset j]; exact hn)
            exact h2
          · obtain ⟨l, hl, hadj⟩ := hinv j (by rwa [hpl] at hj)
              (by simp [hji, hjrest])
            have hpj : part.get j = {l} := by
              refine pl_singleton rules fuel (g.set i {chosen}) part [i] j l ?_ hp
              rwa [Grid.get_set_ne g i j {chosen} (fun he => hji he.symm)]
            refine ⟨l, hpj, ?_⟩
            intro n hn
            rw [hnbcongr j] at hn
            by_cases hni : n = i
            · subst hni
              refine subset_trans ?_ (Finset.singleton_subset_iff.mpr (hadj n hn hchosen))
              rw [← hparti]
            · exact subset_trans (hsubg n hni) (hadj n hn)
        have h9 : (match recur part rest with
            | none => none
            | some (some solved) => some (some solved)
            | some none => tryCands rules recur fuel g i rest more) =
              some (some g') := h
        rcases hr : recur part rest with _ | r
        · rw [hr] at h9
          simp at h9
        · rw [hr] at h9
          match r with
          | some solved =>
            have hsg : solved = g' := by simpa using h9
            subst hsg
            have hout := hrec part rest solved
              (by rw [hpl, hpw, hph, hlen]) hinvpart hr
            exact ⟨hout.1.trans hpw, hout.2.1.trans hph, hout.2.2.1.trans hpl,
              hout.2.2.2⟩
          | none =>
            exact ih fuel g i rest g'
              (fun x hx => hmem x (List.mem_cons_of_mem chosen hx)) hlen hinv h9

theorem solve_inv [DecidableEq L] (sh : Finset L → List L) (rules : L → Finset L)
    (hsh : ∀ (s : Finset L) (x : L), x ∈ sh s → x ∈ s) :
    ∀ (fuel : Nat) (g : Grid (Finset L)) (pending : List Nat)
      (g' : Grid (Finset L)),
      g.contents.length = g.width * g.height →
      Inv rules g pending →
      solve sh rules fuel g pending = some (some g') →
      g'.width = g.width ∧ g'.height = g.height ∧
      g'.contents.length = g.contents.length ∧ Inv rules g' [] := by
  intro fuel
  induction fuel with
  | zero =>
    intro g pending g' _ _ h
    simp [solve] at h
  | succ f ih =>
    intro g pending g' hlen hinv h
    simp only [solve] at h
    rcases hs : sortPending g pending with _ | ⟨i, rest⟩
    · rw [hs] at h
      have hg : g = g' := by simpa using h
      subst hg
      have hpe : pending = [] := by
        have := (List.perm_insertionSort
          (fun a b => (g.get a).card ≤ (g.get b).card) pending).length_eq
        rw [sortPending] at hs
        rw [hs] at this
        exact List.eq_nil_of_length_eq_zero this.symm
      subst hpe
      exact ⟨rfl, rfl, rfl, hinv⟩
    · rw [hs] at h
      have hinv2 : Inv rules g (i :: rest) := by
        intro j hj hjmem
        refine hinv j hj fun hjp => hjmem ?_
        rw [← hs]
        exact (mem_sortPending g pending j).mpr hjp
      exact tryCands_inv rules _ (fun g2 p2 g3 => ih g2 p2 g3) (sh (g.get i)) f g
        i rest g' (fun x hx => hsh (g.get i) x hx) hlen hinv2 h

/-- The concrete shuffle stand-in only returns elements of its input. -/
theorem shEnum_mem : ∀ (s : Finset Nat) (x : Nat), x ∈ shEnum s → x ∈ s := by
  intro s x hx
  simpa using (List.mem_filter.mp hx).2

/-- C3: the claim reads `grid[x + y*width] == init(x, y)`; the constructor
comprehension runs `x` outer and `y` inner, which fills the flat list in
column-major order while `mangle`/`unmangle` are row-major, so at
width = height = 2 with `init x y = {x}` the cell at index `1 + 0*2`
(coordinates x=1, y=0 per `mangle`) holds `init 0 1 = {0}`, not
`init 1 0 = {1}`. -/
theorem C3_create_mangle_mismatch :
    (Grid.create 2 2 fun x _ => ({x} : Finset Nat)).get (1 + 0 * 2) = {0} ∧
    ((fun (x : Nat) (_ : Nat) => ({x} : Finset Nat)) 1 0 : Finset Nat) = {1} ∧
    ¬ (Grid.create 2 2 fun x _ => ({x} : Finset Nat)).get (1 + 0 * 2) =
        (fun (x : Nat) (_ : Nat) => ({x} : Finset Nat)) 1 0 :=
  ⟨by decide, by decide, by decide⟩

/-- C4 counterexample: the claim reads "true if and only if every cell's
domain has size exactly 1", but `is_fully_collapsed` only tests
`len(cell) > 1`, so a grid with an empty cell (size 0) is reported as
fully collapsed. -/
theorem C4_claim_counterexample :
    is_fully_collapsed (⟨1, 1, [(∅ : Finset Nat)]⟩ : Grid (Finset Nat)) = true ∧
    (∅ : Finset Nat) ∈ (⟨1, 1, [(∅ : Finset Nat)]⟩ : Grid (Finset Nat)).contents ∧
    (∅ : Finset Nat).card ≠ 1 :=
  ⟨by decide, by decide, by decide⟩

/-- C4 as amended: `is_fully_collapsed` returns true iff every cell's
domain has size at most 1. -/
theorem C4_fully_collapsed_iff (g : Grid (Finset L)) :
    is_fully_collapsed g = true ↔ ∀ c ∈ g.contents, c.card ≤ 1 := by
  simp only [is_fully_collapsed, Bool.not_eq_eq_eq_not, Bool.not_true,
    List.any_eq_false, decide_eq_true_eq, Nat.not_lt]

/-- C5: `neighbors_of` agrees with the spec's bounded, unwrapped
8-neighborhood (offsets dx outer / dy inner, ascending, kept when the
coordinates stay inside the grid before any modular wrap, yielding
`(x+dx) + (y+dy)*width`); and for width = 4, height = 1 the neighbors of
index 0 are exactly `[1]` (no wrap to 3). -/
theorem C5_neighbors_spec (g : Grid T) (i : Nat) (hi : i < g.width * g.height) :
    g.neighbors_of i = specNeighbors g.width g.height (i % g.width) (i / g.width) ∧
    (⟨4, 1, []⟩ : Grid (Finset Nat)).neighbors_of 0 = [1] := by
  constructor
  · simp only [Grid.neighbors_of, specNeighbors, Grid.unmangle]
    have hfun : ∀ dx : Int,
        (fun dy : Int => if dx = 0 ∧ dy = 0 then none
          else if 0 ≤ ((i % g.width : Nat) : Int) + dx ∧
              ((i % g.width : Nat) : Int) + dx < (g.width : Int) ∧
              0 ≤ ((i / g.width : Nat) : Int) + dy ∧
              ((i / g.width : Nat) : Int) + dy < (g.height : Int) then
            some (g.mangle (((i % g.width : Nat) : Int) + dx)
              (((i / g.width : Nat) : Int) + dy)).toNat
          else none) =
        (fun dy : Int => if dx = 0 ∧ dy = 0 then none
          else if 0 ≤ ((i % g.width : Nat) : Int) + dx ∧
              ((i % g.width : Nat) : Int) + dx < (g.width : Int) ∧
              0 ≤ ((i / g.width : Nat) : Int) + dy ∧
              ((i / g.width : Nat) : Int) + dy < (g.height : Int) then
            some ((((i % g.width : Nat) : Int) + dx) +
              (((i / g.width : Nat) : Int) + dy) * (g.width : Int)).toNat
          else none) := by
      intro dx
      funext dy
      split_ifs with h1 h2
      · rfl
      · obtain ⟨hx0, hxw, hy0, hyh⟩ := h2
        rw [Grid.mangle, Int.emod_eq_of_lt hx0 hxw, Int.emod_eq_of_lt hy0 hyh]
      · rfl
    simp only [hfun]
  · decide

/-- C6 counterexample: the claim reads "propagate returns false iff the
grid it leaves behind has a cell with an empty domain"; but on a 1x1 grid
whose only cell is already empty, the popped cell contributes an empty
allowed-domain, there are no neighbors, and the loop drains returning
true — while the grid left behind does contain an empty domain. -/
theorem C6_claim_counterexample :
    propagate (fun _ => (∅ : Finset Nat)) 2 (⟨1, 1, [∅]⟩ : Grid (Finset Nat)) 0 =
      (some true, ⟨1, 1, [∅]⟩) ∧
    has_contradictions (⟨1, 1, [(∅ : Finset Nat)]⟩ : Grid (Finset Nat)) = true :=
  ⟨by decide, by decide⟩

/-- C6 as amended: `has_contradictions` is true iff some cell's domain is
empty; a false return of `propagate` always leaves a grid with an empty
domain; and on a grid with no empty domain to begin with, the boolean
result is false exactly when the grid left behind has an empty domain. -/
theorem C6_contradiction_amended [DecidableEq L] (rules : L → Finset L) :
    (∀ g : Grid (Finset L), has_contradictions g = true ↔ ∃ c ∈ g.contents, c = ∅) ∧
    (∀ (fuel : Nat) (g g' : Grid (Finset L)) (root : Nat) (b : Bool),
      propagate rules fuel g root = (some b, g') →
      (b = false → has_contradictions g' = true) ∧
      (has_contradictions g = false →
        (b = false ↔ has_contradictions g' = true))) := by
  constructor
  · intro g
    simp only [has_contradictions, List.any_eq_true, decide_eq_true_eq]
  · intro fuel g g' root b hp
    have hfalse : b = false → has_contradictions g' = true := by
      intro hb
      subst hb
      obtain ⟨j, hj, he⟩ :=
        pl_false_empty rules fuel g g' [root] hp
      exact (contra_iff_exists g').mpr ⟨j, hj, he⟩
    refine ⟨hfalse, ?_⟩
    intro hclean
    cases b
    · exact iff_of_true rfl (hfalse rfl)
    · refine iff_of_false (by simp) ?_
      intro hcontra
      obtain ⟨j, hj, he⟩ := (contra_iff_exists g').mp hcontra
      have hdims := pl_dims rules fuel g [root]
      rw [show propagateLoop rules fuel g [root] = (some true, g') from hp] at hdims
      rcases pl_true_cases rules fuel g g' [root] hp j with h2 | h2
      · rw [h2] at he
        have : has_contradictions g = true :=
          (contra_iff_exists g).mpr ⟨j, by rwa [hdims.2.2] at hj, he⟩
        rw [hclean] at this
        cases this
      · exact h2 he

/-- C7: after any call to `propagate`, every cell's post-call domain is a
subset of its pre-call domain (domains only shrink). -/
theorem C7_monotone_shrink [DecidableEq L] (rules : L → Finset L) (fuel : Nat)
    (g : Grid (Finset L)) (root j : Nat) :
    (propagate rules fuel g root).2.get j ⊆ g.get j :=
  pl_subset rules fuel g [root] j

/-- C1 counterexample: as literally stated the claim fails — `solve` never
revisits cells that are not on the pending list, so with an empty pending
list it returns the grid unchanged and nothing enforces adjacency: here
both cells are singletons, cell 1 is a neighbor of cell 0, and the rule
table allows nothing next to anything. -/
theorem C1_claim_counterexample :
    solve shEnum (fun _ => (∅ : Finset Nat)) 1
        (⟨2, 1, [{0}, {1}]⟩ : Grid (Finset Nat)) [] =
      some (some ⟨2, 1, [{0}, {1}]⟩) ∧
    1 ∈ (⟨2, 1, [{0}, {1}]⟩ : Grid (Finset Nat)).neighbors_of 0 ∧
    (⟨2, 1, [{0}, {1}]⟩ : Grid (Finset Nat)).get 0 = {0} ∧
    (⟨2, 1, [{0}, {1}]⟩ : Grid (Finset Nat)).get 1 = {1} ∧
    (1 : Nat) ∉ (fun _ : Nat => (∅ : Finset Nat)) 0 :=
  ⟨by decide, by decide, by decide, by decide, by decide⟩

/-- C1 as amended: provided the pending list covers every cell index (as in
the program's entry point), whenever `solve` returns a grid, every cell
holds a singleton and, for every neighbor, the neighbor's singleton label
is allowed by the cell's label under the rule table. -/
theorem C1_adjacency_amended [DecidableEq L] (sh : Finset L → List L)
    (rules : L → Finset L) (fuel : Nat) (g g' : Grid (Finset L))
    (pending : List Nat)
    (hsh : ∀ (s : Finset L) (x : L), x ∈ sh s → x ∈ s)
    (hlen : g.contents.length = g.width * g.height)
    (hcov : ∀ j, j < g.contents.length → j ∈ pending)
    (hres : solve sh rules fuel g pending = some (some g')) :
    ∀ c, c < g'.contents.length → ∀ n ∈ g'.neighbors_of c,
      ∃ lc ln, g'.get c = {lc} ∧ g'.get n = {ln} ∧ ln ∈ rules lc := by
  obtain ⟨hw, hh, hl, hinv⟩ := solve_inv sh rules hsh fuel g pending g' hlen
    (fun j hj hjp => absurd (hcov j hj) hjp) hres
  intro c hc n hn
  obtain ⟨lc, hlc, hadj⟩ := hinv c hc (by simp)
  have hnlt : n < g'.contents.length := by
    have h2 := g'.neighbors_lt c n hn
    rw [hl, hlen, ← hw, ← hh]
    exact h2
  obtain ⟨ln, hln, -⟩ := hinv n hnlt (by simp)
  refine ⟨lc, ln, hlc, hln, ?_⟩
  have h3 := hadj n hn
  rw [hln] at h3
  exact h3 (Finset.mem_singleton_self ln)

/-- C1 witness: a successful covered run on a 2x1 grid where the adjacency
conclusion is checked between cell 0 and its neighbor cell 1. -/
theorem C1_adjacency_witness :
    ∃ lc ln, ((⟨2, 1, [{0}, {0}]⟩ : Grid (Finset Nat)).get 0 = {lc}) ∧
      ((⟨2, 1, [{0}, {0}]⟩ : Grid (Finset Nat)).get 1 = {ln}) ∧
      ln ∈ (fun _ : Nat => ({0} : Finset Nat)) lc :=
  C1_adjacency_amended shEnum (fun _ => ({0} : Finset Nat)) 9
    ⟨2, 1, [{0}, {0}]⟩ ⟨2, 1, [{0}, {0}]⟩ [0, 1] shEnum_mem (by decide)
    (by decide) (by decide) 0 (by decide) 1 (by decide)

/-- C2 counterexample: as literally stated the claim fails — with an empty
pending list `solve` returns a grid that still has a two-label cell. -/
theorem C2_claim_counterexample :
    solve shEnum (fun _ => (∅ : Finset Nat)) 1
        (⟨1, 1, [{0, 1}]⟩ : Grid (Finset Nat)) [] =
      some (some ⟨1, 1, [{0, 1}]⟩) ∧
    is_fully_collapsed (⟨1, 1, [({0, 1} : Finset Nat)]⟩ : Grid (Finset Nat)) = false :=
  ⟨by decide, by decide⟩

/-- C2 as amended: provided the pending list covers every cell index,
whenever `solve` returns non-null the returned grid is fully collapsed. -/
theorem C2_full_collapse_amended [DecidableEq L] (sh : Finset L → List L)
    (rules : L → Finset L) (fuel : Nat) (g g' : Grid (Finset L))
    (pending : List Nat)
    (hsh : ∀ (s : Finset L) (x : L), x ∈ sh s → x ∈ s)
    (hlen : g.contents.length = g.width * g.height)
    (hcov : ∀ j, j < g.contents.length → j ∈ pending)
    (hres : solve sh rules fuel g pending = some (some g')) :
    is_fully_collapsed g' = true := by
  obtain ⟨hw, hh, hl, hinv⟩ := solve_inv sh rules hsh fuel g pending g' hlen
    (fun j hj hjp => absurd (hcov j hj) hjp) hres
  simp only [is_fully_collapsed, Bool.not_eq_eq_eq_not, Bool.not_true,
    List.any_eq_false, decide_eq_true_eq, Nat.not_lt]
  intro c hc
  obtain ⟨j, hj, hval⟩ := List.mem_iff_getElem.mp hc
  obtain ⟨l, hl2, -⟩ := hinv j hj (by simp)
  have hgc : g'.get j = c := by
    rw [Grid.get, List.getD_eq_getElem g'.contents default hj, hval]
  rw [← hgc, hl2, Finset.card_singleton]

/-- C2 witness: the same successful covered run, fully collapsed. -/
theorem C2_full_collapse_witness :
    is_fully_collapsed (⟨2, 1, [{0}, {0}]⟩ : Grid (Finset Nat)) = true :=
  C2_full_collapse_amended shEnum (fun _ => ({0} : Finset Nat)) 9
    ⟨2, 1, [{0}, {0}]⟩ ⟨2, 1, [{0}, {0}]⟩ [0, 1] shEnum_mem (by decide)
    (by decide) (by decide)

/-- C8: Scenario B — width 2, height 1, the single label 0 in both cells,
and the rule table mapping everything to the empty set.  Whatever the
shuffle does and however much fuel is granted, if `solve` over pending
`[0, 1]` completes it returns Python's `None`: forcing either cell makes
the propagator empty its neighbor's domain and report a contradiction. -/
theorem C8_forced_contradiction (sh : Finset Nat → List Nat)
    (hsh : ∀ (s : Finset Nat) (x : Nat), x ∈ sh s → x ∈ s)
    (fuel : Nat) (r : Option (Grid (Finset Nat)))
    (hres : solve sh (fun _ => (∅ : Finset Nat)) fuel
      (⟨2, 1, [{0}, {0}]⟩ : Grid (Finset Nat)) [0, 1] = some r) :
    r = none := by
  cases fuel with
  | zero => simp [solve] at hres
  | succ f =>
    simp only [solve] at hres
    rw [show sortPending (⟨2, 1, [{0}, {0}]⟩ : Grid (Finset Nat)) [0, 1] = [0, 1]
      from by decide] at hres
    have hres2 : tryCands (fun _ => (∅ : Finset Nat))
        (fun g p => solve sh (fun _ => (∅ : Finset Nat)) f g p) f
        (⟨2, 1, [{0}, {0}]⟩ : Grid (Finset Nat)) 0 [1]
        (sh ((⟨2, 1, [{0}, {0}]⟩ : Grid (Finset Nat)).get 0)) = some r := hres
    have h00 : (⟨2, 1, [{0}, {0}]⟩ : Grid (Finset Nat)).get 0 = ({0} : Finset Nat) := by
      decide
    have hmem : ∀ x ∈ sh ((⟨2, 1, [{0}, {0}]⟩ : Grid (Finset Nat)).get 0), x = 0 := by
      intro x hx
      have h2 := hsh _ x hx
      rw [h00] at h2
      exact Finset.mem_singleton.mp h2
    have hset : (⟨2, 1, [{0}, {0}]⟩ : Grid (Finset Nat)).set 0 {0} =
        ⟨2, 1, [{0}, {0}]⟩ := by decide
    have hprop : ∀ fp : Nat,
        propagate (fun _ => (∅ : Finset Nat)) fp
            (⟨2, 1, [{0}, {0}]⟩ : Grid (Finset Nat)) 0 =
          (none, ⟨2, 1, [{0}, {0}]⟩) ∨
        propagate (fun _ => (∅ : Finset Nat)) fp
            (⟨2, 1, [{0}, {0}]⟩ : Grid (Finset Nat)) 0 =
          (some false, ⟨2, 1, [{0}, ∅]⟩) := by
      intro fp
      cases fp with
      | zero => exact Or.inl rfl
      | succ fp2 =>
        right
        rw [propagate]
        simp only [propagateLoop]
        rw [show visitNeighbors
            (((⟨2, 1, [{0}, {0}]⟩ : Grid (Finset Nat)).get 0).sup
              fun _ => (∅ : Finset Nat))
            (⟨2, 1, [{0}, {0}]⟩ : Grid (Finset Nat))
            ((⟨2, 1, [{0}, {0}]⟩ : Grid (Finset Nat)).neighbors_of 0) [] =
          (false, ⟨2, 1, [{0}, ∅]⟩, [1]) from by decide]
    have haux : ∀ (cands : List Nat), (∀ x ∈ cands, x = 0) →
        ∀ r2 : Option (Grid (Finset Nat)),
        tryCands (fun _ => (∅ : Finset Nat))
          (fun g p => solve sh (fun _ => (∅ : Finset Nat)) f g p) f
          (⟨2, 1, [{0}, {0}]⟩ : Grid (Finset Nat)) 0 [1] cands = some r2 →
        r2 = none := by
      intro cands
      induction cands with
      | nil =>
        intro _ r2 hr2
        have h2 : some (none : Option (Grid (Finset Nat))) = some r2 := hr2
        exact (Option.some.inj h2).symm
      | cons c more ih =>
        intro hmem2 r2 hr2
        have hc0 : c = 0 := hmem2 c (List.mem_cons_self c more)
        subst hc0
        simp only [tryCands] at hr2
        rw [hset] at hr2
        rcases hprop f with hp | hp <;> rw [hp] at hr2
        · have h2 : (none : Option (Option (Grid (Finset Nat)))) = some r2 := hr2
          exact Option.noConfusion h2
        · exact ih (fun x hx => hmem2 x (List.mem_cons_of_mem 0 hx)) r2 hr2
    exact haux _ hmem r hres2

/-- C8 witness: a concrete completing run with the enumeration shuffle. -/
theorem C8_forced_contradiction_witness :
    ((none : Option (Grid (Finset Nat))) = none) ∧
    solve shEnum (fun _ => (∅ : Finset Nat)) 5
      (⟨2, 1, [{0}, {0}]⟩ : Grid (Finset Nat)) [0, 1] = some none :=
  ⟨C8_forced_contradiction shEnum shEnum_mem 5 none (by decide), by decide⟩

/-! Store lemmas for the frame-effect claims. -/

theorem Heap.gridAt_set_ne (h : Heap L) (r r' : Nat) (g : Grid (Finset L))
    (hne : r ≠ r') : (h.setGridAt r g).gridAt r' = h.gridAt r' := by
  simp [Heap.setGridAt, Heap.gridAt, List.getD_eq_getElem?_getD,
    List.getElem?_set, hne]

theorem Heap.listAt_set_ne (h : Heap L) (r r' : Nat) (l : List Nat)
    (hne : r ≠ r') : (h.setListAt r l).listAt r' = h.listAt r' := by
  simp [Heap.setListAt, Heap.listAt, List.getD_eq_getElem?_getD,
    List.getElem?_set, hne]

theorem Heap.listAt_set_self (h : Heap L) (r : Nat) (l : List Nat)
    (hr : r < h.lists.length) : (h.setListAt r l).listAt r = l := by
  simp [Heap.setListAt, Heap.listAt, List.getD_eq_getElem?_getD,
    List.getElem?_set, hr]

theorem Heap.gridAt_alloc_lt (h : Heap L) (g : Grid (Finset L)) (r : Nat)
    (hr : r < h.grids.length) : (h.allocGrid g).1.gridAt r = h.gridAt r := by
  simp [Heap.allocGrid, Heap.gridAt, List.getD_eq_getElem?_getD,
    List.getElem?_append_left hr]

theorem Heap.listAt_alloc_lt (h : Heap L) (l : List Nat) (r : Nat)
    (hr : r < h.lists.length) : (h.allocList l).1.listAt r = h.listAt r := by
  simp [Heap.allocList, Heap.listAt, List.getD_eq_getElem?_getD,
    List.getElem?_append_left hr]

theorem Preserves.self (h : Heap L) (pref : Nat) : Preserves h h pref :=
  ⟨le_rfl, le_rfl, fun _ _ => rfl, fun _ _ _ => rfl⟩

theorem Preserves.trans {h1 h2 h3 : Heap L} {pref : Nat}
    (a : Preserves h1 h2 pref) (b : Preserves h2 h3 pref) :
    Preserves h1 h3 pref :=
  ⟨a.1.trans b.1, a.2.1.trans b.2.1,
    fun r hr => (b.2.2.1 r (lt_of_lt_of_le hr a.1)).trans (a.2.2.1 r hr),
    fun r hr hne =>
      (b.2.2.2 r (lt_of_lt_of_le hr a.2.1) hne).trans (a.2.2.2 r hr hne)⟩

theorem allocGrid_preserves (h : Heap L) (g : Grid (Finset L)) (pref : Nat) :
    Preserves h (h.allocGrid g).1 pref := by
  refine ⟨?_, le_rfl, fun r hr => h.gridAt_alloc_lt g r hr, fun r _ _ => rfl⟩
  simp [Heap.allocGrid]

theorem allocList_preserves (h : Heap L) (l : List Nat) (pref : Nat) :
    Preserves h (h.allocList l).1 pref := by
  refine ⟨le_rfl, ?_, fun r _ => rfl, fun r hr _ => h.listAt_alloc_lt l r hr⟩
  simp [Heap.allocList]

/-- Overwriting a grid cell that did not exist in the base heap `h0`
preserves everything `h0` can see. -/
theorem setGridAt_preserves_ge {h0 h : Heap L} {pref : Nat}
    (hpre : Preserves h0 h pref) (r : Nat) (g : Grid (Finset L))
    (hr : h0.grids.length ≤ r) : Preserves h0 (h.setGridAt r g) pref := by
  refine ⟨?_, hpre.2.1, ?_, fun r2 hr2 hne => hpre.2.2.2 r2 hr2 hne⟩
  · calc h0.grids.length ≤ h.grids.length := hpre.1
      _ = (h.setGridAt r g).grids.length := by simp [Heap.setGridAt]
  · intro r2 hr2
    rw [h.gridAt_set_ne r r2 g (fun he => by omega)]
    exact hpre.2.2.1 r2 hr2

theorem setListAt_self_preserves (h : Heap L) (pref : Nat) (l : List Nat) :
    Preserves h (h.setListAt pref l) pref := by
  refine ⟨le_rfl, ?_, fun r _ => rfl, fun r hr hne => h.listAt_set_ne pref r l
    (fun he => hne he.symm)⟩
  simp [Heap.setListAt]

/-- Frame property of the candidate loop: assuming the recursive call only
mutates fresh objects and its own pending list, the loop preserves every
pre-existing grid and every pre-existing list other than the local pending
list `prest`. -/
theorem tryCandsS_frame [DecidableEq L] (rules : L → Finset L)
    (recur : Heap L → Nat → Nat → Option (Heap L × Option Nat))
    (hrec : ∀ (hh : Heap L) (gref2 pref2 : Nat) (hout : Heap L) (r : Option Nat),
      recur hh gref2 pref2 = some (hout, r) → Preserves hh hout pref2) :
    ∀ (cands : List L) (fuel gref i prest : Nat) (h hout : Heap L)
      (r : Option Nat),
      tryCandsS rules recur fuel gref i prest cands h = some (hout, r) →
      Preserves h hout prest := by
  intro cands
  induction cands with
  | nil =>
    intro fuel gref i prest h hout r hres
    have h2 : (some (h, none) : Option (Heap L × Option Nat)) = some (hout, r) :=
      hres
    have h3 : h = hout := congrArg Prod.fst (Option.some.inj h2)
    exact h3 ▸ Preserves.self h prest
  | cons chosen more ih =>
    intro fuel gref i prest h hout r hres
    simp only [tryCandsS] at hres
    set h₁ : Heap L := (h.allocGrid (h.gridAt gref)).1 with hh₁
    have hp2 : (h.allocGrid (h.gridAt gref)).2 = h.grids.length := rfl
    set p : Nat := (h.allocGrid (h.gridAt gref)).2 with hhp
    set h₂ : Heap L := h₁.setGridAt p ((h₁.gridAt p).set i {chosen}) with hh₂
    have hpre2 : Preserves h h₂ prest :=
      setGridAt_preserves_ge (allocGrid_preserves h (h.gridAt gref) prest) p
        ((h₁.gridAt p).set i {chosen}) (le_of_eq hp2.symm)
    rcases hpp : propagate rules fuel (h₂.gridAt p) i with ⟨ob, g2⟩
    rw [hpp] at hres
    match ob with
    | none => exact Option.noConfusion hres
    | some false =>
      have hpre3 : Preserves h (h₂.setGridAt p g2) prest :=
        setGridAt_preserves_ge hpre2 p g2 (le_of_eq hp2.symm)
      exact hpre3.trans (ih fuel gref i prest (h₂.setGridAt p g2) hout r hres)
    | some true =>
      have hpre3 : Preserves h (h₂.setGridAt p g2) prest :=
        setGridAt_preserves_ge hpre2 p g2 (le_of_eq hp2.symm)
      have h9 : (match recur (h₂.setGridAt p g2) p prest with
          | none => none
          | some (h₄, some sref) => some (h₄, some sref)
          | some (h₄, none) => tryCandsS rules recur fuel gref i prest more h₄) =
            some (hout, r) := hres
      rcases hr2 : recur (h₂.setGridAt p g2) p prest with _ | ⟨h₄, res2⟩
      · rw [hr2] at h9
        exact Option.noConfusion h9
      · rw [hr2] at h9
        have hpre4 : Preserves h h₄ prest :=
          hpre3.trans (hrec (h₂.setGridAt p g2) p prest h₄ res2 hr2)
        match res2 with
        | some sref =>
          have h2 : (some (h₄, some sref) : Option (Heap L × Option Nat)) =
            some (hout, r) := h9
          have h3 : h₄ = hout := congrArg Prod.fst (Option.some.inj h2)
          exact h3 ▸ hpre4
        | none =>
          exact hpre4.trans (ih fuel gref i prest h₄ hout r h9)

/-- Frame property of the store-level solver: every pre-existing grid
object is untouched (mutations only hit deep copies), every pre-existing
list object other than the caller's pending list is untouched, and the
caller's pending list ends up holding its in-place-sorted contents. -/
theorem solveS_frame [DecidableEq L] (sh : Finset L → List L)
    (rules : L → Finset L) :
    ∀ (fuel : Nat) (h : Heap L) (gref pref : Nat) (hout : Heap L)
      (r : Option Nat),
      solveS sh rules fuel h gref pref = some (hout, r) →
      Preserves h hout pref ∧
      (pref < h.lists.length →
        hout.listAt pref = sortPending (h.gridAt gref) (h.listAt pref)) := by
  intro fuel
  induction fuel with
  | zero =>
    intro h gref pref hout r hres
    exact Option.noConfusion hres
  | succ f ih =>
    intro h gref pref hout r hres
    simp only [solveS] at hres
    rcases hs : sortPending (h.gridAt gref) (h.listAt pref) with _ | ⟨i, rest⟩ <;>
      rw [hs] at hres
    · have h2 : (some (h.setListAt pref [], some gref) :
          Option (Heap L × Option Nat)) = some (hout, r) := hres
      have h3 : h.setListAt pref [] = hout := congrArg Prod.fst (Option.some.inj h2)
      refine ⟨h3 ▸ setListAt_self_preserves h pref [], ?_⟩
      intro hp
      rw [← h3, Heap.listAt_set_self h pref [] hp]
    · set h₁ : Heap L := h.setListAt pref (i :: rest) with hh₁
      set prest : Nat := (h₁.allocList rest).2 with hhprest
      set h₂ : Heap L := (h₁.allocList rest).1 with hh₂
      have hframe := tryCandsS_frame rules
        (fun hh g2 p2 => solveS sh rules f hh g2 p2)
        (fun hh g2 p2 ho r2 hr => (ih hh g2 p2 ho r2 hr).1)
        (sh ((h.gridAt gref).get i)) f gref i prest h₂ hout r hres
      have hg2 : h₂.grids = h.grids := rfl
      have hl1 : h₁.lists.length = h.lists.length := by simp [hh₁, Heap.setListAt]
      have hl2 : h₂.lists.length = h₁.lists.length + 1 := by
        simp [hh₂, Heap.allocList]
      have hpval : prest = h₁.lists.length := rfl
      refine ⟨⟨?_, ?_, ?_, ?_⟩, ?_⟩
      · have : h.grids.length ≤ h₂.grids.length := le_of_eq (congrArg List.length hg2.symm)
        exact this.trans hframe.1
      · have : h.lists.length ≤ h₂.lists.length := by omega
        exact this.trans hframe.2.1
      · intro r2 hr2
        have hr2b : r2 < h₂.grids.length := by
          rw [hg2]
          exact hr2
        have he1 : h₂.gridAt r2 = h.gridAt r2 := rfl
        rw [hframe.2.2.1 r2 hr2b, he1]
      · intro r2 hr2 hne
        have hr2b : r2 < h₂.lists.length := by omega
        have hne2 : r2 ≠ prest := by omega
        rw [hframe.2.2.2 r2 hr2b hne2]
        have he2 : h₂.listAt r2 = h₁.listAt r2 :=
          h₁.listAt_alloc_lt rest r2 (by omega)
        rw [he2, hh₁, Heap.listAt_set_ne h pref r2 (i :: rest) (fun he => hne he.symm)]
      · intro hp
        have hpb : pref < h₂.lists.length := by omega
        have hnep : pref ≠ prest := by omega
        rw [hframe.2.2.2 pref hpb hnep]
        have he2 : h₂.listAt pref = h₁.listAt pref :=
          h₁.listAt_alloc_lt rest pref (by omega)
        rw [he2, hh₁, Heap.listAt_set_self h pref (i :: rest) hp]

/-- C9: across a completed `solve` call, the contents of the grid object
the caller passed in are identical before and after — all forcing and
propagation hits only the per-candidate deep copies. -/
theorem C9_caller_grid_intact [DecidableEq L] (sh : Finset L → List L)
    (rules : L → Finset L) (fuel : Nat) (h hout : Heap L) (gref pref : Nat)
    (r : Option Nat) (hgref : gref < h.grids.length)
    (hres : solveS sh rules fuel h gref pref = some (hout, r)) :
    hout.gridAt gref = h.gridAt gref :=
  (solveS_frame sh rules fuel h gref pref hout r hres).1.2.2.1 gref hgref

/-- C9 witness: a concrete completing run; the caller's grid object
(reference 0) is unchanged in the final store. -/
theorem C9_caller_grid_intact_witness :
    (⟨[⟨2, 1, [{0, 1}, {0}]⟩, ⟨2, 1, [{0, 1}, {0}]⟩, ⟨2, 1, [{0}, {0}]⟩],
        [[1, 0], [0], []]⟩ : Heap Nat).gridAt 0 =
    (⟨[⟨2, 1, [{0, 1}, {0}]⟩], [[0, 1]]⟩ : Heap Nat).gridAt 0 :=
  C9_caller_grid_intact shEnum (fun _ => ({0, 1} : Finset Nat)) 9
    ⟨[⟨2, 1, [{0, 1}, {0}]⟩], [[0, 1]]⟩
    ⟨[⟨2, 1, [{0, 1}, {0}]⟩, ⟨2, 1, [{0, 1}, {0}]⟩, ⟨2, 1, [{0}, {0}]⟩],
      [[1, 0], [0], []]⟩
    0 0 (some 2) (by decide) (by decide)

/-- C10: `solve` mutates the caller's pending list object exactly by the
initial in-place stable sort keyed on ascending domain size in the
caller's grid — afterwards the caller's list holds the sorted contents (a
permutation of what was passed in; elements neither added nor removed). -/
theorem C10_pending_sorted_in_place [DecidableEq L] (sh : Finset L → List L)
    (rules : L → Finset L) (fuel : Nat) (h hout : Heap L) (gref pref : Nat)
    (r : Option Nat) (hpref : pref < h.lists.length)
    (hres : solveS sh rules fuel h gref pref = some (hout, r)) :
    hout.listAt pref = sortPending (h.gridAt gref) (h.listAt pref) ∧
    (hout.listAt pref).Perm (h.listAt pref) ∧
    List.Sorted
      (fun a b => ((h.gridAt gref).get a).card ≤ ((h.gridAt gref).get b).card)
      (hout.listAt pref) := by
  have heq := (solveS_frame sh rules fuel h gref pref hout r hres).2 hpref
  refine ⟨heq, ?_, ?_⟩
  · rw [heq]
    exact List.perm_insertionSort _ _
  · rw [heq]
    exact sortPending_sorted (h.gridAt gref) (h.listAt pref)

/-- C10 witness: the same concrete run; the caller's pending list object
(reference 0) went from `[0, 1]` to `[1, 0]`, sorted by domain size. -/
theorem C10_pending_sorted_witness :
    ((⟨[⟨2, 1, [{0, 1}, {0}]⟩, ⟨2, 1, [{0, 1}, {0}]⟩, ⟨2, 1, [{0}, {0}]⟩],
        [[1, 0], [0], []]⟩ : Heap Nat).listAt 0 =
      sortPending ((⟨[⟨2, 1, [{0, 1}, {0}]⟩], [[0, 1]]⟩ : Heap Nat).gridAt 0)
        ((⟨[⟨2, 1, [{0, 1}, {0}]⟩], [[0, 1]]⟩ : Heap Nat).listAt 0)) ∧
    ((⟨[⟨2, 1, [{0, 1}, {0}]⟩, ⟨2, 1, [{0, 1}, {0}]⟩, ⟨2, 1, [{0}, {0}]⟩],
        [[1, 0], [0], []]⟩ : Heap Nat).listAt 0).Perm
      ((⟨[⟨2, 1, [{0, 1}, {0}]⟩], [[0, 1]]⟩ : Heap Nat).listAt 0) ∧
    List.Sorted
      (fun a b =>
        (((⟨[⟨2, 1, [{0, 1}, {0}]⟩], [[0, 1]]⟩ : Heap Nat).gridAt 0).get a).card ≤
        (((⟨[⟨2, 1, [{0, 1}, {0}]⟩], [[0, 1]]⟩ : Heap Nat).gridAt 0).get b).card)
      ((⟨[⟨2, 1, [{0, 1}, {0}]⟩, ⟨2, 1, [{0, 1}, {0}]⟩, ⟨2, 1, [{0}, {0}]⟩],
        [[1, 0], [0], []]⟩ : Heap Nat).listAt 0) :=
  C10_pending_sorted_in_place shEnum (fun _ => ({0, 1} : Finset Nat)) 9
    ⟨[⟨2, 1, [{0, 1}, {0}]⟩], [[0, 1]]⟩
    ⟨[⟨2, 1, [{0, 1}, {0}]⟩, ⟨2, 1, [{0, 1}, {0}]⟩, ⟨2, 1, [{0}, {0}]⟩],
      [[1, 0], [0], []]⟩
    0 0 (some 2) (by decide) (by decide)

/-- C5 witness: the spec-side enumeration agrees with `neighbors_of` on a
concrete in-range index of a 4x1 grid. -/
theorem C5_neighbors_witness :
    ((⟨4, 1, [∅, ∅, ∅, ∅]⟩ : Grid (Finset Nat)).neighbors_of 0 =
      specNeighbors 4 1 (0 % 4) (0 / 4)) ∧
    (⟨4, 1, []⟩ : Grid (Finset Nat)).neighbors_of 0 = [1] :=
  C5_neighbors_spec (⟨4, 1, [∅, ∅, ∅, ∅]⟩ : Grid (Finset Nat)) 0 (by decide)

/-- C6 witness: a concrete false-returning propagation on a clean grid,
with the amended equivalence instantiated there. -/
theorem C6_contradiction_witness :
    (false = false ↔
      has_contradictions (⟨2, 1, [{0}, ∅]⟩ : Grid (Finset Nat)) = true) :=
  ((C6_contradiction_amended (fun _ => (∅ : Finset Nat))).2 2
    ⟨2, 1, [{0}, {0}]⟩ ⟨2, 1, [{0}, ∅]⟩ 0 false (by decide)).2 (by decide)

end Waves
